import Mathlib

/-!
Verification development for the oakd-pi-viewer recording conversion service.

The definitions below are shallow embeddings of the Python source under
src/src/oakd_viewer/.  Pure functions are translated to Lean functions;
the stateful job registry of app.py is translated to an explicit state
type with a step function; fallible code returns Except or Option.
Machine floats that the claims depend on only through exact values are
modelled as rationals; every place where that idealisation could matter
is called out in a doc comment on the definition.
-/

namespace Oakd

/-! ## Association-list helpers

Python dicts keyed by strings (the job table and the dedup map in app.py)
are modelled as association lists whose key lists are kept duplicate-free
by the registry invariant. -/

/-- Lookup in an association list, mirroring Python `d[k]` / `k in d`. -/
def alookup {β : Type} : List (String × β) → String → Option β
  | [], _ => none
  | (k, v) :: rest, key => if k = key then some v else alookup rest key

/-- Remove every binding of a key, mirroring Python `d.pop(k, None)` on a
dict (which holds at most one binding per key). -/
def aerase {β : Type} : List (String × β) → String → List (String × β)
  | [], _ => []
  | (k, v) :: rest, key =>
      if k = key then aerase rest key else (k, v) :: aerase rest key

/-- Overwrite the value bound to a key, mirroring Python `d[k] = v` when
the key is already present. -/
def aupdate {β : Type} : List (String × β) → String → β → List (String × β)
  | [], _, _ => []
  | (k, v) :: rest, key, nv =>
      if k = key then (key, nv) :: aupdate rest key nv
      else (k, v) :: aupdate rest key nv

/-! ## Cache / completion tracking (cache.py, preprocess.py)

cache.is_processed checks for the three output files in the local cache
directory only.  preprocess.process_one additionally consults the S3
listing.  Presence of each of the three outputs in each tier is modelled
by a record of three booleans per tier. -/

/-- Presence flags for the three output artifacts in one storage tier
(either the local cache directory or the S3 listing). -/
structure OutputsPresent where
  rgb : Bool
  depth : Bool
  imu : Bool
deriving DecidableEq, Repr

/-- Translation of cache.is_processed: all three outputs exist in the
local cache directory.  The S3 tier is not consulted. -/
def is_processed (localTier : OutputsPresent) : Bool :=
  localTier.rgb && localTier.depth && localTier.imu

/-- The spec's Completion Tracker presence rule (spec section 4.4,
"present if it exists in the durable store OR already exists in the
local working directory"), stated for all three outputs at once.  This
definition follows the spec's words; it is compared against
is_processed, which follows the source. -/
def completionPresentAll (s3Tier localTier : OutputsPresent) : Bool :=
  (s3Tier.rgb || localTier.rgb) && (s3Tier.depth || localTier.depth)
    && (s3Tier.imu || localTier.imu)

/-! ## Job registry (app.py lines 24-27, 71-89, 92-145, 148-173)

The module-level dicts `_jobs : job_id -> {recording_id, events, done}`
and `_active_recordings : recording_id -> job_id` are the state.  FastAPI
handlers run on one asyncio event loop; `start_processing` contains no
await between reading `_active_recordings` and writing it (lines 74-89),
and the `finally` block of `_run_processing` (lines 143-145) contains no
await at all, so each of them is a single atomic transition of the
state.  `asyncio.create_task` at line 87 does not yield control. -/

/-- One entry of the `_jobs` dict: the recording it belongs to and the
`done` flag (the event queue is irrelevant to the claims and omitted). -/
structure RJob where
  recording : String
  done : Bool
deriving DecidableEq, Repr

/-- The shared mutable state of app.py: the `_jobs` dict and the
`_active_recordings` dedup dict. -/
structure RState where
  jobs : List (String × RJob)
  active : List (String × String)
deriving DecidableEq, Repr

/-- The state at process start: both dicts empty. -/
def rinit : RState := ⟨[], []⟩

/-- The JSON body returned by the `/api/process` route: either
`{"status": "ready"}` or `{"status": "processing", "job_id": ...}`. -/
inductive RResponse where
  | ready (rid : String)
  | processing (jobId : String) (rid : String)
deriving DecidableEq, Repr

/-- Translation of app.start_processing (lines 71-89).  `proc` is the
value returned by `cache.is_processed(recording_id)` at request time and
`newId` is the fresh uuid generated at line 82.  The whole body runs
without yielding to the event loop, so it is one atomic transition. -/
def start_processing (proc : Bool) (rid newId : String) (s : RState) :
    RState × RResponse :=
  if proc then (s, .ready rid)
  else
    match alookup s.active rid with
    | some jid => (s, .processing jid rid)
    | none =>
        ({ jobs := (newId, ⟨rid, false⟩) :: s.jobs,
           active := (rid, newId) :: s.active },
         .processing newId rid)

/-- Translation of the `finally` block of app._run_processing (lines
143-145): mark the job done, then drop the recording from the dedup
map.  Both statements execute without an intervening await. -/
def finish_job (jid rid : String) (s : RState) : RState :=
  match alookup s.jobs jid with
  | some j => { jobs := aupdate s.jobs jid { j with done := true },
                active := aerase s.active rid }
  | none => s

/-- Translation of the cleanup at the end of app.job_events (line 167):
`_jobs.pop(job_id, None)` once the SSE stream has ended. -/
def reap_job (jid : String) (s : RState) : RState :=
  { s with jobs := aerase s.jobs jid }

/-- The atomic operations that mutate the registry state.  A start
carries the is_processed value observed at request time and the fresh
uuid; a finish carries the (job_id, recording_id) pair that
_run_processing was created with. -/
inductive ROp where
  | start (proc : Bool) (rid newId : String)
  | finish (jid rid : String)
  | reap (jid : String)

/-- One registry transition.  The guards encode how the operations arise
in app.py: a start's uuid is fresh (uuid4 collision is excluded), and a
finish is issued exactly once per created task, with the recording id
the job was created for, while the job is still marked running. -/
def rstep (s : RState) : ROp → RState
  | .start proc rid newId =>
      if alookup s.jobs newId = none then (start_processing proc rid newId s).1
      else s
  | .finish jid rid =>
      match alookup s.jobs jid with
      | some j => if j.done = false ∧ j.recording = rid then finish_job jid rid s else s
      | none => s
  | .reap jid => reap_job jid s

/-- Run a sequence of registry operations from the initial state. -/
def rrun (ops : List ROp) : RState := ops.foldl rstep rinit

/-- The non-terminal jobs registered for one recording. -/
def nonTerminalFor (s : RState) (rid : String) : List (String × RJob) :=
  s.jobs.filter (fun p => decide (p.2.done = false ∧ p.2.recording = rid))

/-- The dedup invariant of the spec's data model: at most one
non-terminal job exists per recording id. -/
def AtMostOneNonTerminal (s : RState) : Prop :=
  ∀ rid, (nonTerminalFor s rid).length ≤ 1

/-- Internal strengthening: keys of both dicts are duplicate-free and
every running job is registered in the dedup map under its recording. -/
def RInv (s : RState) : Prop :=
  (s.jobs.map Prod.fst).Nodup ∧ (s.active.map Prod.fst).Nodup ∧
    ∀ jid j, (jid, j) ∈ s.jobs → j.done = false →
      alookup s.active j.recording = some jid

/-- Replay of N concurrent POST /api/process requests for one recording:
since each handler body is atomic, any concurrent arrival order is some
sequential order of start_processing calls.  `proc = false` throughout
models a not-yet-converted recording whose first job has not completed
(no finish occurs inside the window). -/
def runStarts (rid : String) (ids : List String) (s : RState) :
    RState × List RResponse :=
  match ids with
  | [] => (s, [])
  | id :: rest =>
      let p := start_processing false rid id s
      let q := runStarts rid rest p.1
      (q.1, p.2 :: q.2)

/-! ### Association-list lemmas -/

theorem alookup_eq_none_iff {β : Type} (l : List (String × β)) (k : String) :
    alookup l k = none ↔ k ∉ l.map Prod.fst := by
  induction l with
  | nil => simp [alookup]
  | cons p rest ih =>
      obtain ⟨a, b⟩ := p
      by_cases h : a = k
      · subst h
        simp [alookup]
      · have hk : ¬ k = a := fun hh => h hh.symm
        simp [alookup, h, hk, ih]

theorem alookup_mem {β : Type} {l : List (String × β)} {k : String} {v : β}
    (h : alookup l k = some v) : (k, v) ∈ l := by
  induction l with
  | nil => simp [alookup] at h
  | cons p rest ih =>
      obtain ⟨a, b⟩ := p
      by_cases hak : a = k
      · subst hak
        simp [alookup] at h
        simp [h]
      · simp [alookup, hak] at h
        exact List.mem_cons_of_mem _ (ih h)

theorem aerase_sublist {β : Type} (l : List (String × β)) (k : String) :
    (aerase l k).Sublist l := by
  induction l with
  | nil => exact List.Sublist.refl _
  | cons p rest ih =>
      obtain ⟨a, b⟩ := p
      unfold aerase
      by_cases h : a = k
      · rw [if_pos h]
        exact ih.cons _
      · rw [if_neg h]
        exact ih.cons₂ _

theorem mem_aerase {β : Type} {l : List (String × β)} {k : String} {x : String × β}
    (h : x ∈ aerase l k) : x ∈ l :=
  (aerase_sublist l k).mem h

theorem alookup_aerase_ne {β : Type} (l : List (String × β)) {k k' : String}
    (h : k' ≠ k) : alookup (aerase l k) k' = alookup l k' := by
  induction l with
  | nil => rfl
  | cons p rest ih =>
      obtain ⟨a, b⟩ := p
      by_cases hak : a = k
      · subst hak
        have hne : ¬ a = k' := fun hh => h hh.symm
        simp [aerase, alookup, hne, ih]
      · by_cases hak' : a = k'
        · simp [aerase, alookup, hak, hak', h]
        · simp [aerase, alookup, hak, hak', ih]

theorem map_fst_aupdate {β : Type} (l : List (String × β)) (k : String) (nv : β) :
    (aupdate l k nv).map Prod.fst = l.map Prod.fst := by
  induction l with
  | nil => rfl
  | cons p rest ih =>
      obtain ⟨a, b⟩ := p
      by_cases h : a = k
      · subst h
        simp [aupdate, ih]
      · simp [aupdate, h, ih]

theorem mem_aupdate {β : Type} {l : List (String × β)} {k : String} {nv : β}
    {x : String × β} (h : x ∈ aupdate l k nv) :
    (x.1 = k ∧ x.2 = nv) ∨ (x ∈ l ∧ x.1 ≠ k) := by
  induction l with
  | nil => simp [aupdate] at h
  | cons p rest ih =>
      obtain ⟨a, b⟩ := p
      by_cases hak : a = k
      · subst hak
        simp only [aupdate, if_pos rfl] at h
        rcases List.mem_cons.mp h with h | h
        · subst h
          exact Or.inl ⟨rfl, rfl⟩
        · rcases ih h with h' | h'
          · exact Or.inl h'
          · exact Or.inr ⟨List.mem_cons_of_mem _ h'.1, h'.2⟩
      · simp only [aupdate, if_neg hak] at h
        rcases List.mem_cons.mp h with h | h
        · subst h
          exact Or.inr ⟨List.mem_cons_self _ _, hak⟩
        · rcases ih h with h' | h'
          · exact Or.inl h'
          · exact Or.inr ⟨List.mem_cons_of_mem _ h'.1, h'.2⟩

/-! ### Registry invariant (claim C1) -/

theorem rinv_init : RInv rinit := by
  refine ⟨by simp [rinit], by simp [rinit], ?_⟩
  intro jid j h
  simp [rinit] at h

theorem rinv_step {s : RState} (hs : RInv s) (op : ROp) : RInv (rstep s op) := by
  obtain ⟨hjn, han, hreg⟩ := hs
  cases op with
  | start proc rid newId =>
      simp only [rstep]
      by_cases hfresh : alookup s.jobs newId = none
      · rw [if_pos hfresh]
        unfold start_processing
        by_cases hp : proc = true
        · rw [if_pos hp]
          exact ⟨hjn, han, hreg⟩
        · rw [if_neg hp]
          cases hact : alookup s.active rid with
          | some jid => exact ⟨hjn, han, hreg⟩
          | none =>
              refine ⟨?_, ?_, ?_⟩
              · simp only [List.map_cons]
                exact List.nodup_cons.mpr ⟨(alookup_eq_none_iff _ _).mp hfresh, hjn⟩
              · simp only [List.map_cons]
                exact List.nodup_cons.mpr ⟨(alookup_eq_none_iff _ _).mp hact, han⟩
              · intro jid j hmem hdone
                rcases List.mem_cons.mp hmem with h | h
                · rw [Prod.mk.injEq] at h
                  obtain ⟨rfl, rfl⟩ := h
                  simp [alookup]
                · have hl := hreg jid j h hdone
                  have hne : ¬ rid = j.recording := by
                    intro he
                    rw [← he, hact] at hl
                    exact Option.noConfusion hl
                  show alookup ((rid, newId) :: s.active) j.recording = some jid
                  simpa [alookup, hne] using hl
      · rw [if_neg hfresh]
        exact ⟨hjn, han, hreg⟩
  | finish jid rid =>
      simp only [rstep]
      cases hj : alookup s.jobs jid with
      | none => exact ⟨hjn, han, hreg⟩
      | some j =>
          show RInv (if j.done = false ∧ j.recording = rid then finish_job jid rid s else s)
          by_cases hguard : j.done = false ∧ j.recording = rid
          · rw [if_pos hguard]
            unfold finish_job
            rw [hj]
            refine ⟨?_, ?_, ?_⟩
            · show ((aupdate s.jobs jid _).map Prod.fst).Nodup
              rw [map_fst_aupdate]
              exact hjn
            · exact List.Nodup.sublist ((aerase_sublist _ _).map _) han
            · intro jid' j' hmem hdone
              rcases mem_aupdate hmem with ⟨h1, h2⟩ | ⟨hmem', hne⟩
              · have h2' : j' = { j with done := true } := h2
                rw [h2'] at hdone
                simp at hdone
              · have hne' : jid' ≠ jid := hne
                have hlk := hreg jid' j' hmem' hdone
                have hjmem := alookup_mem hj
                have hrec : j'.recording ≠ rid := by
                  intro he
                  have h1 := hreg jid j hjmem hguard.1
                  rw [hguard.2] at h1
                  rw [he] at hlk
                  rw [h1] at hlk
                  exact hne' (Option.some.inj hlk).symm
                show alookup (aerase s.active rid) j'.recording = some jid'
                rw [alookup_aerase_ne _ hrec]
                exact hlk
          · rw [if_neg hguard]
            exact ⟨hjn, han, hreg⟩
  | reap jid =>
      refine ⟨?_, han, ?_⟩
      · exact List.Nodup.sublist ((aerase_sublist _ _).map _) hjn
      · intro jid' j' hmem hdone
        exact hreg jid' j' (mem_aerase hmem) hdone

theorem rinv_run (ops : List ROp) : RInv (rrun ops) := by
  suffices h : ∀ (l : List ROp) (s : RState), RInv s → RInv (l.foldl rstep s) by
    exact h ops rinit rinv_init
  intro l
  induction l with
  | nil => intro s hs; exact hs
  | cons op rest ih => intro s hs; exact ih _ (rinv_step hs op)

theorem atMostOne_of_rinv {s : RState} (hs : RInv s) : AtMostOneNonTerminal s := by
  obtain ⟨hjn, _, hreg⟩ := hs
  intro rid
  have hkey : ∀ p ∈ nonTerminalFor s rid, alookup s.active rid = some p.1 := by
    intro p hp
    obtain ⟨hmem, hprop⟩ := List.mem_filter.mp hp
    obtain ⟨hd, hr⟩ := of_decide_eq_true hprop
    have := hreg p.1 p.2 hmem hd
    rwa [hr] at this
  have hsub : (nonTerminalFor s rid).Sublist s.jobs := List.filter_sublist _
  have hnd : ((nonTerminalFor s rid).map Prod.fst).Nodup :=
    List.Nodup.sublist (hsub.map _) hjn
  cases hl : nonTerminalFor s rid with
  | nil => simp
  | cons x rest =>
      cases rest with
      | nil => simp
      | cons y rest' =>
          exfalso
          have hx := hkey x (by rw [hl]; exact List.mem_cons_self _ _)
          have hy := hkey y (by rw [hl]; exact List.mem_cons_of_mem _ (List.mem_cons_self _ _))
          rw [hx] at hy
          have hxy : x.1 = y.1 := Option.some.inj hy
          rw [hl] at hnd
          simp at hnd
          exact hnd.1.1 hxy

theorem runStarts_joined {rid jid : String} :
    ∀ (ids : List String) (s : RState), alookup s.active rid = some jid →
      runStarts rid ids s = (s, ids.map fun _ => RResponse.processing jid rid) := by
  intro ids
  induction ids with
  | nil => intro s _; simp [runStarts]
  | cons id rest ih =>
      intro s hs
      simp only [runStarts, start_processing, if_neg Bool.false_ne_true, hs]
      rw [ih s hs]
      simp

/-- C1: the dedup-map check and insertion in start_processing are atomic
(no await separates them), so every reachable registry state has at most
one non-terminal job per recording, and replaying any number of
concurrent requests for one not-yet-converted recording creates exactly
one job, every request observing the same job reference (the id of the
first request's job). -/
theorem C1_single_flight :
    (∀ ops : List ROp, AtMostOneNonTerminal (rrun ops)) ∧
    (∀ (s : RState) (rid : String) (ids : List String),
      alookup s.active rid = none → ids ≠ [] →
      (runStarts rid ids s).1.jobs.length = s.jobs.length + 1 ∧
      ∀ r ∈ (runStarts rid ids s).2,
        r = RResponse.processing (ids.headD "") rid) := by
  constructor
  · intro ops
    exact atMostOne_of_rinv (rinv_run ops)
  · intro s rid ids hnone hne
    cases ids with
    | nil => exact (hne rfl).elim
    | cons id rest =>
        have hstep : start_processing false rid id s =
            ({ jobs := (id, ⟨rid, false⟩) :: s.jobs,
               active := (rid, id) :: s.active },
             .processing id rid) := by
          simp [start_processing, hnone]
        have hsome : alookup ((rid, id) :: s.active) rid = some id := by
          simp [alookup]
        constructor
        · show (runStarts rid (id :: rest) s).1.jobs.length = _
          simp only [runStarts, hstep]
          rw [runStarts_joined rest _ hsome]
          simp
        · intro r hr
          simp only [runStarts, hstep] at hr
          rw [runStarts_joined rest _ hsome] at hr
          rcases List.mem_cons.mp hr with h | h
          · exact h
          · obtain ⟨x, hx, hxr⟩ := List.mem_map.mp h
            exact hxr.symm

/-- Witness for C1 at a concrete run: two concurrent requests for
recording "r" with fresh uuids "a" and "b". -/
theorem C1_single_flight_witness :
    AtMostOneNonTerminal (rrun [ROp.start false "r" "a", ROp.start false "r" "b"]) ∧
    ((runStarts "r" ["a", "b"] rinit).1.jobs.length = rinit.jobs.length + 1 ∧
      ∀ r ∈ (runStarts "r" ["a", "b"] rinit).2,
        r = RResponse.processing "a" "r") :=
  ⟨C1_single_flight.1 _,
   C1_single_flight.2 rinit "r" ["a", "b"] rfl (by simp)⟩

/-! ### Claim C5: completed recordings short-circuit

cache.is_processed (cache.py lines 16-23) consults only the local cache
directory, while the claim's "Completion Tracker presence rule" (spec
section 4.4) also counts outputs present in the durable store.  The two
disagree when outputs exist in S3 but not locally. -/

/-- C5 counterexample: a recording whose three outputs are all present
in the durable store but absent locally is complete under the
Completion Tracker's presence rule, yet a conversion request does
create a job and does not return the ready signal. -/
theorem C5_counterexample :
    completionPresentAll ⟨true, true, true⟩ ⟨false, false, false⟩ = true ∧
    is_processed ⟨false, false, false⟩ = false ∧
    (start_processing (is_processed ⟨false, false, false⟩) "rec" "j1" rinit).2 =
      RResponse.processing "j1" "rec" ∧
    (start_processing (is_processed ⟨false, false, false⟩) "rec" "j1" rinit).1.jobs.length =
      rinit.jobs.length + 1 := by
  refine ⟨rfl, rfl, rfl, rfl⟩

/-- C5 amended: for every recording whose three outputs are already
complete in the LOCAL cache directory, a conversion request creates no
job, leaves the job and dedup maps unchanged, and returns the immediate
ready signal. -/
theorem C5_ready_short_circuit (s : RState) (rid newId : String)
    (localTier : OutputsPresent) (h : is_processed localTier = true) :
    start_processing (is_processed localTier) rid newId s = (s, RResponse.ready rid) := by
  simp [start_processing, h]

/-- Witness for C5 amended at a concrete state. -/
theorem C5_ready_short_circuit_witness :
    start_processing (is_processed ⟨true, true, true⟩) "rec" "j" rinit =
      (rinit, RResponse.ready "rec") :=
  C5_ready_short_circuit rinit "rec" "j" ⟨true, true, true⟩ rfl

/-! ## Extractor launching (preprocess.py lines 52-109, processing.py 226-242)

preprocess.process_one computes the needed set from the S3 listing and
the local cache and submits only the needed extractors to its thread
pool.  processing.process_recording, used by the web server's
_run_processing, always gathers all three extractors. -/

/-- The three channel extractors. -/
inductive Extractor where
  | rgb
  | depth
  | imu
deriving DecidableEq, Repr

/-- One entry of the S3 listing of a recording folder, as produced by
s3.list_prefix and re-keyed by name in process_one. -/
structure S3File where
  name : String
  key : String
  size : Nat
deriving DecidableEq, Repr

/-- Membership test mirroring `"rgb.mp4" in s3_files` on the dict keyed
by file name (preprocess.py lines 61-63). -/
def s3Has (s3_files : List S3File) (n : String) : Bool :=
  s3_files.any (fun f => f.name = n)

/-- File name of each extractor's output artifact. -/
def outputName : Extractor → String
  | .rgb => "rgb.mp4"
  | .depth => "depth.mp4"
  | .imu => "imu.json"

/-- Local-cache presence of each extractor's output (the three
cache.get_*_path(...).exists() checks, preprocess.py lines 64-66). -/
def localHasOf (localTier : OutputsPresent) : Extractor → Bool
  | .rgb => localTier.rgb
  | .depth => localTier.depth
  | .imu => localTier.imu

/-- Translation of the need_rgb / need_depth / need_imu computation
(preprocess.py lines 68-70): needed iff absent from S3 and absent from
the local cache. -/
def needOutput (s3_files : List S3File) (localTier : OutputsPresent)
    (e : Extractor) : Bool :=
  !(s3Has s3_files (outputName e)) && !(localHasOf localTier e)

/-- Suffix test on the character lists, mirroring Python str.endswith.
(The library String.endsWith computes the same boolean but does not
reduce inside the kernel, so the check is spelled out on List Char.) -/
def strEndsWith (s suf : String) : Bool :=
  suf.data == s.data.drop (s.data.length - suf.data.length)

/-- Translation of preprocess._find_mcap_key (lines 23-28): the first
non-empty MCAP file of the listing. -/
def find_mcap_key (s3_files : List S3File) : Option (String × Nat) :=
  (s3_files.find? (fun f => strEndsWith f.name ".mcap" && decide (0 < f.size))).map
    (fun f => (f.key, f.size))

/-- Translation of preprocess.process_one (lines 52-109), abstracted to
the list of extractors it submits to its thread pool.  `mcapLocalSize`
is the size of the cached recording.mcap if that file exists; the stale
0-byte cleanup of lines 81-82 turns a 0-size file into an absent one,
and lines 85-92 make the run proceed exactly when the MCAP is then
present locally or a non-empty MCAP exists in the listing. -/
def process_one (s3_files : List S3File) (localTier : OutputsPresent)
    (mcapLocalSize : Option Nat) : List Extractor :=
  let need_rgb := needOutput s3_files localTier .rgb
  let need_depth := needOutput s3_files localTier .depth
  let need_imu := needOutput s3_files localTier .imu
  if !need_rgb && !need_depth && !need_imu then []
  else
    let mcapLocal : Option Nat :=
      match mcapLocalSize with
      | some 0 => none
      | x => x
    if mcapLocal.isSome || (find_mcap_key s3_files).isSome then
      (if need_rgb then [Extractor.rgb] else []) ++
        (if need_depth then [Extractor.depth] else []) ++
        (if need_imu then [Extractor.imu] else [])
    else []

/-- Translation of processing.process_recording (lines 226-242): it
gathers process_rgb, process_depth and process_imu unconditionally,
with no needed-set parameter and no skipping of existing outputs. -/
def process_recording_extractors : List Extractor :=
  [Extractor.rgb, Extractor.depth, Extractor.imu]

/-- The set of extractors whose output is absent from both storage
tiers, in pipeline order.  This definition follows the spec's words for
the needed set and is compared against the launch behaviour of the two
conversion entry points. -/
def neededList (s3_files : List S3File) (localTier : OutputsPresent) :
    List Extractor :=
  [Extractor.rgb, Extractor.depth, Extractor.imu].filter
    (needOutput s3_files localTier)

/-! ### Claim C4: launch exactly the needed extractors -/

/-- C4 counterexample: with the rgb output already present in the local
cache (hence not needed) and depth and imu missing, the web server still
accepts a conversion request (is_processed is false) and
process_recording launches all three extractors, re-producing the
present rgb output. -/
theorem C4_counterexample :
    needOutput [] ⟨true, false, false⟩ Extractor.rgb = false ∧
    is_processed ⟨true, false, false⟩ = false ∧
    Extractor.rgb ∈ process_recording_extractors ∧
    process_recording_extractors ≠ neededList [] ⟨true, false, false⟩ := by
  refine ⟨rfl, rfl, ?_, by decide⟩
  exact List.mem_cons_self _ _

/-- C4 amended: the background pre-processor's conversion run launches
exactly the extractors whose output is absent from both the durable
store and the local working directory, provided a usable (non-empty)
input container is available locally or in the listing; the web
server's conversion run instead always launches all three extractors. -/
theorem C4_process_one_launches_needed (s3_files : List S3File)
    (localTier : OutputsPresent) (mcapLocalSize : Option Nat)
    (havail : ((match mcapLocalSize with
                | some 0 => (none : Option Nat)
                | x => x).isSome || (find_mcap_key s3_files).isSome) = true) :
    process_one s3_files localTier mcapLocalSize = neededList s3_files localTier ∧
    process_recording_extractors = [Extractor.rgb, Extractor.depth, Extractor.imu] := by
  refine ⟨?_, rfl⟩
  cases hr : needOutput s3_files localTier .rgb <;>
    cases hd : needOutput s3_files localTier .depth <;>
      cases hi : needOutput s3_files localTier .imu <;>
        simp [process_one, neededList, hr, hd, hi, havail, List.filter]

/-- Witness for C4 amended: an empty cache, no outputs in S3, and a
non-empty MCAP in the listing launches all three extractors. -/
theorem C4_process_one_launches_needed_witness :
    process_one [⟨"rec.mcap", "k/rec.mcap", 5⟩] ⟨false, false, false⟩ none =
      neededList [⟨"rec.mcap", "k/rec.mcap", 5⟩] ⟨false, false, false⟩ ∧
    process_recording_extractors = [Extractor.rgb, Extractor.depth, Extractor.imu] :=
  C4_process_one_launches_needed [⟨"rec.mcap", "k/rec.mcap", 5⟩] ⟨false, false, false⟩
    none (by decide)

/-! ## Structural MCAP model (mcap_reader.py)

mcap_reader.py drives the external mcap library.  What the claims need
from that library is its summary/statistics structure and the fact that
iteration with a topics filter yields exactly the stored messages whose
channel carries that topic; both are modelled structurally here.  A
file with `summary = some s` is one for which _has_summary (lines
17-25) returns True, i.e. the summary and its statistics block are
readable. -/

/-- A channel record: numeric channel id and topic name. -/
structure MChannel where
  id : Nat
  topic : String
deriving DecidableEq, Repr

/-- A stored message: channel id, log time and payload bytes. -/
structure MMessage where
  channel : Nat
  log_time : Int
  data : List Nat
deriving DecidableEq, Repr

/-- The statistics block of a summary: per-channel message counts. -/
structure MStatistics where
  channel_message_counts : List (Nat × Nat)
deriving DecidableEq, Repr

/-- A readable summary: channel map plus statistics. -/
structure MSummary where
  channels : List MChannel
  statistics : MStatistics
deriving DecidableEq, Repr

/-- An MCAP file as visible through mcap_reader.py: an optional
readable summary, the channel records of the data section, and the
stored messages. -/
structure McapFile where
  summary : Option MSummary
  channelDefs : List MChannel
  records : List MMessage
deriving DecidableEq, Repr

/-- Lookup in a Nat-keyed association list, mirroring Python
`counts.get(cid)`. -/
def nlookup : List (Nat × Nat) → Nat → Option Nat
  | [], _ => none
  | (k, v) :: rest, key => if k = key then some v else nlookup rest key

/-- Whether some channel of `chs` has this id and topic; this is the
topics=[topic] filter the mcap readers apply during iteration. -/
def topicMatches (chs : List MChannel) (cid : Nat) (topic : String) : Bool :=
  chs.any (fun ch => ch.id == cid && ch.topic == topic)

/-- Translation of mcap_reader.iter_messages (lines 28-46) over the
structural model: both the indexed reader and the forward-scan reader
yield the stored messages whose channel carries the requested topic, in
file order (the channel map comes from the summary when present, else
from the channel records seen during the scan). -/
def iter_messages (file : McapFile) (topic : String) : List MMessage :=
  match file.summary with
  | some s => file.records.filter (fun m => topicMatches s.channels m.channel topic)
  | none => file.records.filter (fun m => topicMatches file.channelDefs m.channel topic)

/-- Translation of mcap_reader.count_messages (lines 105-133).  With a
summary: return the statistics count of the FIRST channel whose topic
matches (lines 115-119), defaulting to 0, and 0 if no channel matches
(line 120).  Without a summary: count by iterating (lines 122-133). -/
def count_messages (file : McapFile) (topic : String) : Nat :=
  match file.summary with
  | some s =>
      match s.channels.find? (fun ch => ch.topic == topic) with
      | some ch => (nlookup s.statistics.channel_message_counts ch.id).getD 0
      | none => 0
  | none =>
      (file.records.filter (fun m => topicMatches file.channelDefs m.channel topic)).length

/-- Number of stored messages on one channel id. -/
def recordCountFor (file : McapFile) (cid : Nat) : Nat :=
  (file.records.filter (fun m => m.channel == cid)).length

/-- A valid index in the sense of the spec (readable summary whose
statistics are internally consistent with the stored messages): the
statistics carry the exact message count of every summary channel, and
every stored message belongs to a summary channel. -/
def ValidIndex (file : McapFile) : Prop :=
  ∃ s, file.summary = some s ∧
    (∀ ch ∈ s.channels,
      nlookup s.statistics.channel_message_counts ch.id =
        some (recordCountFor file ch.id)) ∧
    (∀ m ∈ file.records, ∃ ch ∈ s.channels, ch.id = m.channel)

/-! ## Inertial extractor core (processing.py lines 178-223, claim C3) -/

/-- One decoded IMU sample: accelerometer and gyroscope triples. -/
structure ImuSample where
  ax : ℚ
  ay : ℚ
  az : ℚ
  gx : ℚ
  gy : ℚ
  gz : ℚ
deriving DecidableEq, Repr

/-- Python round(x, 4).  Python rounds half to even while Mathlib round
rounds half up; the two agree except at exact five-in-the-fifth-place
ties, which no claim evaluates. -/
def round4 (q : ℚ) : ℚ := ((round (q * 10000) : ℤ) : ℚ) / 10000

/-- The downsampling loop of process_imu (lines 189-206): keep indices
divisible by the downsample factor, latch the timestamp of the first
KEPT sample, and rebase kept timestamps to seconds relative to it.
Timestamps are nanosecond integers; the float division by 1e9 is
modelled as exact rational division. -/
def imuLoop (K : Nat) : Nat → Option Int → List (Int × ImuSample) →
    List ℚ × List ImuSample
  | _, _, [] => ([], [])
  | i, firstTs, (ts, smp) :: rest =>
      if i % K ≠ 0 then imuLoop K (i + 1) firstTs rest
      else
        let f := firstTs.getD ts
        let p := imuLoop K (i + 1) (some f) rest
        (round4 (((ts - f : Int) : ℚ) / 1000000000) :: p.1, smp :: p.2)

/-- The JSON document written by process_imu (lines 211-217). -/
structure ImuResult where
  timestamps : List ℚ
  accel_x : List ℚ
  accel_y : List ℚ
  accel_z : List ℚ
  gyro_x : List ℚ
  gyro_y : List ℚ
  gyro_z : List ℚ
  sample_rate_hz : ℤ
  sample_count : Nat
deriving DecidableEq, Repr

/-- The pure transformation of process_imu on the decoded message
stream: downsample, rebase, round, and assemble the output document
with sample_rate_hz = round(200 / K) and sample_count the number of
kept timestamps. -/
def process_imu_core (K : Nat) (msgs : List (Int × ImuSample)) : ImuResult :=
  let p := imuLoop K 0 none msgs
  { timestamps := p.1
    accel_x := p.2.map (fun s => round4 s.ax)
    accel_y := p.2.map (fun s => round4 s.ay)
    accel_z := p.2.map (fun s => round4 s.az)
    gyro_x := p.2.map (fun s => round4 s.gx)
    gyro_y := p.2.map (fun s => round4 s.gy)
    gyro_z := p.2.map (fun s => round4 s.gz)
    sample_rate_hz := round ((200 : ℚ) / (K : ℚ))
    sample_count := p.1.length }

/-! ## Extractor entry points as effect traces (claims C9, C3)

For the fail-fast claim the three extractors are modelled down to the
effects that matter: spawning the external encoder and writing output.
The encoder's exit code and the IEEE-754 payload decoding are inputs of
the model (`encoderRc`, `decode`). -/

/-- Externally visible effects of one extractor run. -/
inductive PEffect where
  | spawnEncoder (cmd : String)
  | writeFrame
  | writeOutputFile
deriving DecidableEq, Repr

/-- Translation of processing.process_rgb (lines 28-63): count first and
raise before any encoder spawn when the count is zero; otherwise spawn
ffmpeg, pipe every message, and fail on a non-zero exit code. -/
def process_rgb (encoderRc : Int) (file : McapFile) :
    List PEffect × Except String Unit :=
  let total := count_messages file "/oak/rgb"
  if total = 0 then ([], .error "No RGB messages found in MCAP")
  else
    (PEffect.spawnEncoder "ffmpeg" ::
       (iter_messages file "/oak/rgb").map (fun _ => PEffect.writeFrame),
     if encoderRc = 0 then .ok () else .error "ffmpeg RGB remux failed")

/-- Translation of processing.process_depth (lines 127-175): same shape
as process_rgb on the depth channel. -/
def process_depth (encoderRc : Int) (file : McapFile) :
    List PEffect × Except String Unit :=
  let total := count_messages file "/oak/depth"
  if total = 0 then ([], .error "No depth messages found in MCAP")
  else
    (PEffect.spawnEncoder "ffmpeg" ::
       (iter_messages file "/oak/depth").map (fun _ => PEffect.writeFrame),
     if encoderRc = 0 then .ok () else .error "ffmpeg depth encode failed")

/-- Translation of processing.process_imu (lines 178-223): count first
and raise before writing anything when the count is zero; otherwise run
the pure core on the decoded stream and write the JSON output file (no
external encoder on this path).  `decode` stands for the struct.unpack
of the six IEEE-754 doubles. -/
def process_imu (K : Nat) (decode : List Nat → ImuSample) (file : McapFile) :
    List PEffect × Except String ImuResult :=
  let total := count_messages file "/oak/imu"
  if total = 0 then ([], .error "No IMU messages found in MCAP")
  else
    ([PEffect.writeOutputFile],
     .ok (process_imu_core K
       ((iter_messages file "/oak/imu").map (fun m => (m.log_time, decode m.data)))))

/-! ### Claim C3: inertial downsampling -/

theorem imuLoop_length (K : Nat) :
    ∀ (l : List (Int × ImuSample)) (i : Nat) (f : Option Int),
      (imuLoop K i f l).1.length =
        ((List.range' i l.length).filter (fun j => j % K == 0)).length := by
  intro l
  induction l with
  | nil => intro i f; simp [imuLoop]
  | cons p rest ih =>
      intro i f
      obtain ⟨ts, smp⟩ := p
      rw [List.length_cons, List.range'_succ, List.filter_cons]
      by_cases h : i % K = 0
      · have hb : (i % K == 0) = true := by simp [h]
        rw [if_pos hb]
        simp only [imuLoop, h, ne_eq, not_true_eq_false, if_false]
        simp [ih]
      · have hb : (i % K == 0) = false := by simp [h]
        rw [if_neg (by simp [hb])]
        simp only [imuLoop, h, ne_eq, not_false_eq_true, if_true]
        exact ih i.succ f

theorem count_multiples (K : Nat) (hK : 1 ≤ K) (M : Nat) :
    ((List.range M).filter (fun j => j % K == 0)).length = (M + K - 1) / K := by
  induction M with
  | zero =>
      rw [List.range_zero, List.filter_nil, List.length_nil]
      rw [Nat.zero_add, Nat.div_eq_of_lt (by omega)]
  | succ n ih =>
      rw [List.range_succ, List.filter_append, List.length_append, ih]
      have h1 : n + 1 + K - 1 = n + K := by omega
      have h2 : n + K = (n + K - 1) + 1 := by omega
      rw [h1, h2, Nat.succ_div, ← h2]
      have h3 : K ∣ n + K ↔ K ∣ n := by
        rw [Nat.add_comm]
        exact Nat.dvd_add_right (dvd_refl K)
      by_cases h : n % K = 0
      · rw [if_pos (h3.mpr (Nat.dvd_of_mod_eq_zero h))]
        simp [List.filter, h]
      · rw [if_neg (fun hd => h (Nat.mod_eq_zero_of_dvd (h3.mp hd)))]
        have hb : (n % K == 0) = false := by simp [h]
        simp [List.filter, hb]

/-- C3: for downsample factor K and an inertial stream of M decoded
samples, the extractor core keeps exactly ceil(M / K) samples, the
written sample_count field equals that number, and the first retained
timestamp is rebased to exactly 0. -/
theorem C3_imu_downsample (K : Nat) (msgs : List (Int × ImuSample))
    (hK : 1 ≤ K) (hne : msgs ≠ []) :
    (process_imu_core K msgs).timestamps.length = (msgs.length + K - 1) / K ∧
    (process_imu_core K msgs).sample_count = (msgs.length + K - 1) / K ∧
    (process_imu_core K msgs).timestamps.head? = some 0 := by
  have hlen : (imuLoop K 0 none msgs).1.length = (msgs.length + K - 1) / K := by
    rw [imuLoop_length, ← List.range_eq_range', count_multiples K hK]
  refine ⟨hlen, hlen, ?_⟩
  cases msgs with
  | nil => exact (hne rfl).elim
  | cons p rest =>
      obtain ⟨ts, smp⟩ := p
      simp [process_imu_core, imuLoop, Nat.zero_mod, round4]

/-- The all-zero IMU sample, used by concrete instances. -/
def sampleZero : ImuSample := ⟨0, 0, 0, 0, 0, 0⟩

/-- Five concrete IMU messages. -/
def imuMsgs5 : List (Int × ImuSample) :=
  [(100, sampleZero), (105, sampleZero), (110, sampleZero),
   (115, sampleZero), (120, sampleZero)]

/-- Witness for C3 at K = 4 on five samples: two samples are kept. -/
theorem C3_imu_downsample_witness :
    (process_imu_core 4 imuMsgs5).timestamps.length = (imuMsgs5.length + 4 - 1) / 4 ∧
    (process_imu_core 4 imuMsgs5).sample_count = (imuMsgs5.length + 4 - 1) / 4 ∧
    (process_imu_core 4 imuMsgs5).timestamps.head? = some 0 :=
  C3_imu_downsample 4 imuMsgs5 (by decide) (by decide)

/-! ### Claim C8: indexed count agrees with exhaustive iteration -/

/-- A valid index over two channels that share one topic: the mcap
format does not forbid this, and the statistics are exact. -/
def dupTopicFile : McapFile :=
  { summary := some { channels := [⟨1, "/oak/imu"⟩, ⟨2, "/oak/imu"⟩],
                      statistics := { channel_message_counts := [(1, 1), (2, 1)] } },
    channelDefs := [⟨1, "/oak/imu"⟩, ⟨2, "/oak/imu"⟩],
    records := [⟨1, 0, []⟩, ⟨2, 1, []⟩] }

/-- C8 counterexample: with a valid index but two channels sharing the
requested topic, count_messages returns the first matching channel's
count (1) while exhaustive iteration yields both channels' messages
(2). -/
theorem C8_counterexample :
    ValidIndex dupTopicFile ∧
    count_messages dupTopicFile "/oak/imu" = 1 ∧
    (iter_messages dupTopicFile "/oak/imu").length = 2 := by
  refine ⟨⟨_, rfl, by decide, by decide⟩, by decide, by decide⟩

/-- C8 amended: for every container with a valid index in which no two
distinct channels share a topic, count_messages on a channel equals the
number of messages obtained by exhaustively iterating that channel. -/
theorem C8_count_eq_iter (file : McapFile) (topic : String)
    (hvalid : ValidIndex file)
    (huniq : ∀ s, file.summary = some s → ∀ c1 ∈ s.channels, ∀ c2 ∈ s.channels,
      c1.topic = c2.topic → c1.id = c2.id) :
    count_messages file topic = (iter_messages file topic).length := by
  obtain ⟨s, hs, hcounts, hwf⟩ := hvalid
  have huq := huniq s hs
  simp only [count_messages, iter_messages, hs]
  cases hfind : s.channels.find? (fun ch => ch.topic == topic) with
  | none =>
      have hnone := List.find?_eq_none.mp hfind
      symm
      rw [List.length_eq_zero, List.filter_eq_nil_iff]
      intro m hm hmatch
      obtain ⟨ch, hch, hb⟩ := List.any_eq_true.mp hmatch
      have hb2 : ch.topic = topic := by
        have := (Bool.and_eq_true _ _).mp hb
        exact beq_iff_eq.mp this.2
      exact hnone ch hch (by simp [hb2])
  | some ch =>
      have hmem := List.mem_of_find?_eq_some hfind
      have htop : ch.topic = topic := by
        have := List.find?_some hfind
        simpa using this
      show (nlookup s.statistics.channel_message_counts ch.id).getD 0 =
        (file.records.filter (fun m => topicMatches s.channels m.channel topic)).length
      rw [hcounts ch hmem, Option.getD_some, recordCountFor]
      have hfilter :
          file.records.filter (fun m => m.channel == ch.id) =
            file.records.filter (fun m => topicMatches s.channels m.channel topic) := by
        apply List.filter_congr
        intro m hm
        by_cases hmc : m.channel = ch.id
        · have hl : (m.channel == ch.id) = true := by simp [hmc]
          have hr : topicMatches s.channels m.channel topic = true := by
            apply List.any_eq_true.mpr
            exact ⟨ch, hmem, by simp [hmc, htop]⟩
          rw [hl, hr]
        · have hl : (m.channel == ch.id) = false := by simp [hmc]
          have hr : topicMatches s.channels m.channel topic = false := by
            rw [Bool.eq_false_iff]
            intro hmatch
            obtain ⟨ch', hch', hb⟩ := List.any_eq_true.mp hmatch
            have hb' := (Bool.and_eq_true _ _).mp hb
            have hid : ch'.id = m.channel := beq_iff_eq.mp hb'.1
            have htp : ch'.topic = topic := beq_iff_eq.mp hb'.2
            have : ch'.id = ch.id := huq ch' hch' ch hmem (by rw [htp, htop])
            exact hmc (by rw [← hid, this])
          rw [hl, hr]
      rw [hfilter]

/-- A valid index with a single channel per topic. -/
def uniqTopicFile : McapFile :=
  { summary := some { channels := [⟨1, "/oak/rgb"⟩],
                      statistics := { channel_message_counts := [(1, 2)] } },
    channelDefs := [⟨1, "/oak/rgb"⟩],
    records := [⟨1, 0, []⟩, ⟨1, 1, []⟩] }

/-- Witness for C8 amended on a concrete single-channel file. -/
theorem C8_count_eq_iter_witness :
    count_messages uniqTopicFile "/oak/rgb" =
      (iter_messages uniqTopicFile "/oak/rgb").length := by
  refine C8_count_eq_iter uniqTopicFile "/oak/rgb" ⟨_, rfl, by decide, by decide⟩ ?_
  intro s hs c1 h1 c2 h2 _
  cases hs
  simp only [List.mem_singleton] at h1 h2
  rw [h1, h2]

/-! ### Claim C9: zero messages on a channel fail fast -/

/-- C9: whenever the container reader reports zero messages on an
extractor's channel, that extractor returns the descriptive
no-messages-found error with an empty effect trace: no external encoder
is spawned and no output is written. -/
theorem C9_zero_messages_fail_fast (file : McapFile) (rc : Int) (K : Nat)
    (decode : List Nat → ImuSample) :
    (count_messages file "/oak/rgb" = 0 →
      process_rgb rc file = ([], Except.error "No RGB messages found in MCAP")) ∧
    (count_messages file "/oak/depth" = 0 →
      process_depth rc file = ([], Except.error "No depth messages found in MCAP")) ∧
    (count_messages file "/oak/imu" = 0 →
      process_imu K decode file = ([], Except.error "No IMU messages found in MCAP")) := by
  refine ⟨fun h => ?_, fun h => ?_, fun h => ?_⟩ <;>
    simp [process_rgb, process_depth, process_imu, h]

/-- A container with no summary, no channels and no messages. -/
def emptyFile : McapFile := ⟨none, [], []⟩

/-- Witness for C9 on the empty container. -/
theorem C9_zero_messages_fail_fast_witness :
    process_rgb 0 emptyFile = ([], Except.error "No RGB messages found in MCAP") ∧
    process_depth 0 emptyFile = ([], Except.error "No depth messages found in MCAP") ∧
    process_imu 4 (fun _ => sampleZero) emptyFile =
      ([], Except.error "No IMU messages found in MCAP") := by
  have h := C9_zero_messages_fail_fast emptyFile 0 4 (fun _ => sampleZero)
  exact ⟨h.1 rfl, h.2.1 rfl, h.2.2 rfl⟩

/-! ## Forward-scan container reading (mcap_reader.py lines 38-46, claim C6)

The byte-level record decoding is performed by the external mcap
library's NonSeekingReader; only its wrapper lives in this repository.
Modelled from the spec: the container's data section is a sequence of
length-prefixed records ("decodes records in file order without relying
on any trailing structure"), message records carrying (channel,
timestamp, payload) and other records being skipped; a stream that ends
mid-record raises, and iter_messages catches that and keeps the
messages decoded so far. -/

/-- A record of the container's data section. -/
inductive CRecord where
  | message (channel : Nat) (ts : Nat) (data : List Nat)
  | other (info : List Nat)
deriving DecidableEq, Repr

/-- Wire encoding of one record: an opcode, the fixed header fields,
a payload length, then the payload. -/
def encodeRecord : CRecord → List Nat
  | .message c t d => 1 :: c :: t :: d.length :: d
  | .other info => 2 :: info.length :: info

/-- Wire encoding of a record sequence. -/
def encodeRecords (rs : List CRecord) : List Nat :=
  (rs.map encodeRecord).flatten

/-- Forward scan of the byte stream: decode records in order; return
the message triples decoded so far plus a flag that is true when the
scan aborted on a truncated or corrupt record (the reader's
exception). -/
def scanRecords : List Nat → List (Nat × Nat × List Nat) × Bool
  | 1 :: c :: t :: n :: rest =>
      if n ≤ rest.length then
        let p := scanRecords (rest.drop n)
        ((c, t, rest.take n) :: p.1, p.2)
      else ([], true)
  | 2 :: n :: rest =>
      if n ≤ rest.length then scanRecords (rest.drop n) else ([], true)
  | [] => ([], false)
  | _ => ([], true)
termination_by l => l.length
decreasing_by
  all_goals simp [List.length_drop]
  all_goals omega

/-- Translation of the fallback branch of iter_messages (lines 38-46):
scan forward, filter to the requested channel, and swallow the
exception when the stream ends early, yielding (timestamp, payload) for
each message kept.  Totality of this function is the model of
"terminates without raising". -/
def iter_messages_forward (bytes : List Nat) (channel : Nat) :
    List (Nat × List Nat) :=
  ((scanRecords bytes).1.filter (fun m => m.1 == channel)).map
    (fun m => (m.2.1, m.2.2))

/-- The message triple of a record, if it is a message. -/
def msgOf : CRecord → Option (Nat × Nat × List Nat)
  | .message c t d => some (c, t, d)
  | .other _ => none

/-- Ground truth: the (timestamp, payload) sequence of one channel in a
record sequence, in order. -/
def channelMessages (rs : List CRecord) (channel : Nat) : List (Nat × List Nat) :=
  rs.filterMap (fun r =>
    match r with
    | .message c t d => if c == channel then some (t, d) else none
    | .other _ => none)

/-- A byte tail that is empty or stops strictly inside one encoded
record: the shape of a file truncated by an aborted recording. -/
def MidRecordTail (tail : List Nat) : Prop :=
  tail = [] ∨ ∃ (r : CRecord) (rest : List Nat),
    rest ≠ [] ∧ tail ++ rest = encodeRecord r

theorem scan_midrecord (t : List Nat) (ht : MidRecordTail t) :
    (scanRecords t).1 = [] := by
  rcases ht with rfl | ⟨r, rest, hne, henc⟩
  · simp [scanRecords]
  · have hrlen : rest.length ≠ 0 := fun h => hne (List.length_eq_zero.mp h)
    cases r with
    | message c ts d =>
        simp only [encodeRecord] at henc
        cases t with
        | nil => simp [scanRecords]
        | cons a t1 =>
            rw [List.cons_append] at henc
            injection henc with h1 henc
            subst h1
            cases t1 with
            | nil =>
                rw [scanRecords.eq_def]
            | cons b t2 =>
                rw [List.cons_append] at henc
                injection henc with h2 henc
                subst h2
                cases t2 with
                | nil =>
                    rw [scanRecords.eq_def]
                | cons e t3 =>
                    rw [List.cons_append] at henc
                    injection henc with h3 henc
                    subst h3
                    cases t3 with
                    | nil =>
                        rw [scanRecords.eq_def]
                    | cons n0 t4 =>
                        rw [List.cons_append] at henc
                        injection henc with h4 henc
                        subst h4
                        have hlt : ¬ (d.length ≤ t4.length) := by
                          have hl : t4.length + rest.length = d.length := by
                            rw [← henc]
                            exact (List.length_append _ _).symm
                          omega
                        simp only [scanRecords]
                        rw [if_neg hlt]
    | other info =>
        simp only [encodeRecord] at henc
        cases t with
        | nil => simp [scanRecords]
        | cons a t1 =>
            rw [List.cons_append] at henc
            injection henc with h1 henc
            subst h1
            cases t1 with
            | nil =>
                rw [scanRecords.eq_def]
            | cons n0 t2 =>
                rw [List.cons_append] at henc
                injection henc with h2 henc
                subst h2
                have hlt : ¬ (info.length ≤ t2.length) := by
                  have hl : t2.length + rest.length = info.length := by
                    rw [← henc]
                    exact (List.length_append _ _).symm
                  omega
                simp only [scanRecords]
                rw [if_neg hlt]

theorem scan_encode_append (r : CRecord) (more : List Nat) :
    scanRecords (encodeRecord r ++ more) =
      ((msgOf r).toList ++ (scanRecords more).1, (scanRecords more).2) := by
  cases r with
  | message c t d =>
      show scanRecords (1 :: c :: t :: d.length :: (d ++ more)) = _
      simp only [scanRecords]
      rw [if_pos (by simp)]
      rw [List.take_left, List.drop_left]
      rfl
  | other info =>
      show scanRecords (2 :: info.length :: (info ++ more)) = _
      simp only [scanRecords]
      rw [if_pos (by simp)]
      rw [List.drop_left]
      rfl

theorem scan_records_full (rs : List CRecord) (tail : List Nat)
    (ht : MidRecordTail tail) :
    (scanRecords (encodeRecords rs ++ tail)).1 = rs.filterMap msgOf := by
  induction rs with
  | nil =>
      simp only [encodeRecords, List.map_nil, List.flatten_nil, List.nil_append,
        List.filterMap_nil]
      exact scan_midrecord tail ht
  | cons r rest ih =>
      have henc : encodeRecords (r :: rest) ++ tail =
          encodeRecord r ++ (encodeRecords rest ++ tail) := by
        simp [encodeRecords, List.append_assoc]
      rw [henc, scan_encode_append]
      cases r with
      | message c t d => simp [msgOf, ih]
      | other info => simp [msgOf, ih]

theorem filter_msgs (rs : List CRecord) (channel : Nat) :
    ((rs.filterMap msgOf).filter (fun m => m.1 == channel)).map
        (fun m => (m.2.1, m.2.2)) = channelMessages rs channel := by
  induction rs with
  | nil => rfl
  | cons r rest ih =>
      cases r with
      | message c t d =>
          have h1 : (CRecord.message c t d :: rest).filterMap msgOf =
              (c, t, d) :: rest.filterMap msgOf := by
            simp [List.filterMap_cons, msgOf]
          by_cases hc : c = channel
          · have hcb : (c == channel) = true := by simp [hc]
            have h2 : channelMessages (CRecord.message c t d :: rest) channel =
                (t, d) :: channelMessages rest channel := by
              simp [channelMessages, List.filterMap_cons, hc]
            rw [h1, h2, List.filter_cons]
            simp [hcb, ih]
          · have hcb : (c == channel) = false := by simp [hc]
            have h2 : channelMessages (CRecord.message c t d :: rest) channel =
                channelMessages rest channel := by
              simp [channelMessages, List.filterMap_cons, hc]
            rw [h1, h2, List.filter_cons]
            simp [hcb, ih]
      | other info =>
          have h1 : (CRecord.other info :: rest).filterMap msgOf =
              rest.filterMap msgOf := by
            simp [List.filterMap_cons, msgOf]
          have h2 : channelMessages (CRecord.other info :: rest) channel =
              channelMessages rest channel := by
            simp [channelMessages, List.filterMap_cons]
          rw [h1, h2, ih]

/-- C6: forward-scan iteration over a channel of a container whose byte
stream is a record sequence followed by a truncated tail terminates
with a value (the scanner is a total function and the wrapper swallows
the end-of-stream error) and yields exactly the channel's messages from
the complete records: same order, no duplicates, no messages of another
channel, hence a prefix-consistent subset of the channel's messages. -/
theorem C6_forward_scan (rs : List CRecord) (tail : List Nat) (channel : Nat)
    (htail : MidRecordTail tail) :
    iter_messages_forward (encodeRecords rs ++ tail) channel =
      channelMessages rs channel := by
  rw [iter_messages_forward, scan_records_full rs tail htail, filter_msgs]

/-- A concrete record sequence for the C6 witness. -/
def c6Records : List CRecord :=
  [.message 1 5 [7, 7], .other [9], .message 2 6 [8], .message 1 9 []]

/-- Witness for C6: a concrete stream ending two bytes into a record. -/
theorem C6_forward_scan_witness :
    iter_messages_forward (encodeRecords c6Records ++ [1, 3]) 1 =
      channelMessages c6Records 1 :=
  C6_forward_scan c6Records [1, 3] 1
    (Or.inr ⟨.message 3 0 [0], [0, 1, 0], by decide, by decide⟩)

/-! ## Range-aware artifact server (app.py lines 203-240, claims C7, C10)

The artifact file is a byte list; the Range header is parsed exactly as
lines 210-213 do: strip "bytes=", split on "-", default an empty start
to 0 and an empty end to file_size - 1.  The library functions
String.replace / String.splitOn / String.toNat? compute the same values
but do not reduce inside the kernel, so the three operations are spelled
out on the character lists. -/

/-- Remove every occurrence of a (non-empty) pattern, mirroring Python
str.replace(pat, "").  Structured with a fuel argument (initially the
input length, which the scan never exhausts since every step consumes
at least one character) so that the function reduces in the kernel. -/
def replaceStrAux (pat : List Char) : Nat → List Char → List Char
  | _, [] => []
  | 0, l => l
  | fuel + 1, c :: rest =>
      if pat ≠ [] ∧ pat.isPrefixOf (c :: rest) then
        replaceStrAux pat fuel ((c :: rest).drop pat.length)
      else c :: replaceStrAux pat fuel rest

/-- Remove every occurrence of a non-empty pattern. -/
def replaceStr (pat l : List Char) : List Char := replaceStrAux pat l.length l

/-- Split on the dash character, mirroring Python str.split("-"). -/
def splitDash : List Char → List (List Char)
  | [] => [[]]
  | c :: rest =>
      if c = '-' then [] :: splitDash rest
      else
        match splitDash rest with
        | [] => [[c]]
        | h :: t => (c :: h) :: t

/-- Parse a run of decimal digits, mirroring Python int(s) on the
digit strings a Range header carries (Python int additionally accepts
signs and whitespace; none of the claims exercise those). -/
def digitsToNat? (l : List Char) : Option Nat :=
  if l ≠ [] ∧ l.all (fun c => c.isDigit) then
    some (l.foldl (fun n c => n * 10 + (c.toNat - '0'.toNat)) 0)
  else none

/-- Translation of the header parsing of _range_response (lines
210-213): start := int(parts[0]) if parts[0] else 0, end :=
int(parts[1]) if parts[1] else file_size - 1.  none models the
exceptions Python raises on a header with no dash or non-numeric
bounds. -/
def parseRange (rangeHeader : String) (fileSize : Int) : Option (Nat × Int) :=
  match splitDash (replaceStr "bytes=".data rangeHeader.data) with
  | [] => none
  | [_] => none
  | p0 :: p1 :: _ =>
      match (if p0 = [] then some 0 else digitsToNat? p0),
            (if p1 = [] then some (fileSize - 1)
             else (digitsToNat? p1).map Int.ofNat) with
      | some s, some e => some (s, e)
      | _, _ => none

/-- Translation of the iter_chunk generator (lines 217-227): after
seeking to `pos`, read chunks of at most 65536 bytes until `remaining`
is exhausted or the file ends. -/
def iter_chunk (file : List Nat) (pos : Nat) (remaining : Int) : List Nat :=
  if h1 : remaining ≤ 0 then []
  else
    if h2 : ((file.drop pos).take (min 65536 remaining).toNat).length = 0 then []
    else
      ((file.drop pos).take (min 65536 remaining).toNat) ++
        iter_chunk file
          (pos + ((file.drop pos).take (min 65536 remaining).toNat).length)
          (remaining - ((file.drop pos).take (min 65536 remaining).toNat).length)
termination_by remaining.toNat
decreasing_by
  simp only [not_le] at h1
  omega

/-- The 206 partial response assembled at lines 229-238: streamed body,
Content-Range bounds and total, and Content-Length. -/
structure RangeResp where
  body : List Nat
  rangeStart : Nat
  rangeEnd : Int
  totalSize : Nat
  contentLength : Int
deriving DecidableEq, Repr

/-- A response of _range_response: the plain FileResponse when no Range
header is present, else the 206 partial response. -/
inductive RangeResult where
  | full (body : List Nat)
  | ranged (resp : RangeResp)
deriving DecidableEq, Repr

/-- Translation of _range_response (lines 203-240): parse the header,
clamp the end bound to file_size - 1, compute length = end - start + 1
and stream that span from the seek offset. -/
def range_response (file : List Nat) (rangeHeader : Option String) :
    Option RangeResult :=
  match rangeHeader with
  | none => some (.full file)
  | some h =>
      match parseRange h (file.length : Int) with
      | none => none
      | some (s, e0) =>
          let e := min e0 ((file.length : Int) - 1)
          let length := e - (s : Int) + 1
          some (.ranged { body := iter_chunk file s length,
                          rangeStart := s,
                          rangeEnd := e,
                          totalSize := file.length,
                          contentLength := length })

theorem iter_chunk_spec (file : List Nat) :
    ∀ (n : Nat) (remaining : Int), remaining.toNat = n → ∀ (pos : Nat),
      iter_chunk file pos remaining = (file.drop pos).take remaining.toNat := by
  intro n
  induction n using Nat.strong_induction_on with
  | _ n ih =>
      intro remaining hr pos
      rw [iter_chunk.eq_def]
      by_cases h1 : remaining ≤ 0
      · rw [dif_pos h1]
        have : remaining.toNat = 0 := by omega
        rw [this, List.take_zero]
      · rw [dif_neg h1]
        have hrem : 1 ≤ remaining := by omega
        have hc1 : 1 ≤ (min 65536 remaining).toNat := by omega
        by_cases h2 : ((file.drop pos).take (min 65536 remaining).toNat).length = 0
        · rw [dif_pos h2]
          rw [List.length_take] at h2
          have hnil : file.drop pos = [] := by
            rw [← List.length_eq_zero]
            omega
          rw [hnil, List.take_nil]
        · rw [dif_neg h2]
          set data := (file.drop pos).take (min 65536 remaining).toNat with hdata
          have hlenle : data.length ≤ (min 65536 remaining).toNat :=
            List.length_take_le _ _
          have hlen1 : 1 ≤ data.length := by omega
          have hstep : (remaining - (data.length : Int)).toNat < n := by omega
          rw [ih _ hstep _ rfl _]
          have hdd : file.drop (pos + data.length) = (file.drop pos).drop data.length := by
            rw [List.drop_drop, Nat.add_comm]
          rw [hdd]
          have hsum : remaining.toNat = data.length + (remaining - (data.length : Int)).toNat := by
            omega
          rw [hsum, List.take_add]
          congr 1
          rw [hdata, List.length_take]
          by_cases hcl : (min 65536 remaining).toNat ≤ (file.drop pos).length
          · rw [Nat.min_eq_left hcl]
          · have hll : (file.drop pos).length ≤ (min 65536 remaining).toNat := by omega
            rw [Nat.min_eq_right hll, List.take_length,
              List.take_of_length_le hll]

/-- C7: for a range request whose header parses to bounds (a, b) with
a <= S - 1 on an artifact of S bytes, the 206 response's body is
exactly the requested span (end clamped to S - 1), Content-Length
equals end - start + 1 and the reported total is S; and a bytes=0-
request returns all S bytes with total S. -/
theorem C7_range_request (file : List Nat) (h : String) (a : Nat) (b : Int)
    (hparse : parseRange h (file.length : Int) = some (a, b))
    (ha : (a : Int) ≤ (file.length : Int) - 1) :
    range_response file (some h) =
      some (.ranged { body := (file.drop a).take
                        (min b ((file.length : Int) - 1) - (a : Int) + 1).toNat,
                      rangeStart := a,
                      rangeEnd := min b ((file.length : Int) - 1),
                      totalSize := file.length,
                      contentLength := min b ((file.length : Int) - 1) - (a : Int) + 1 }) ∧
    range_response file (some "bytes=0-") =
      some (.ranged { body := file,
                      rangeStart := 0,
                      rangeEnd := (file.length : Int) - 1,
                      totalSize := file.length,
                      contentLength := (file.length : Int) }) := by
  constructor
  · simp only [range_response, hparse]
    rw [iter_chunk_spec file _ _ rfl]
  · have hp0 : parseRange "bytes=0-" (file.length : Int) =
        some (0, (file.length : Int) - 1) := rfl
    simp only [range_response, hp0]
    rw [iter_chunk_spec file _ _ rfl]
    have he : min ((file.length : Int) - 1) ((file.length : Int) - 1) =
        (file.length : Int) - 1 := min_self _
    rw [he]
    have hlen : ((file.length : Int) - 1 - (0 : Nat) + 1) = (file.length : Int) := by
      omega
    rw [hlen]
    have hbody : (file.drop 0).take (file.length : Int).toNat = file := by
      rw [List.drop_zero, Int.toNat_natCast, List.take_length]
    rw [hbody]

/-- Witness for C7: the range bytes=2-9 on a 6-byte artifact is clamped
to end 5 and returns the last four bytes. -/
theorem C7_range_request_witness :
    range_response [10, 11, 12, 13, 14, 15] (some "bytes=2-9") =
      some (.ranged { body := [12, 13, 14, 15],
                      rangeStart := 2,
                      rangeEnd := 5,
                      totalSize := 6,
                      contentLength := 4 }) ∧
    range_response [10, 11, 12, 13, 14, 15] (some "bytes=0-") =
      some (.ranged { body := [10, 11, 12, 13, 14, 15],
                      rangeStart := 0,
                      rangeEnd := 5,
                      totalSize := 6,
                      contentLength := 6 }) := by
  have h := C7_range_request [10, 11, 12, 13, 14, 15] "bytes=2-9" 2 9
    (by decide) (by decide)
  exact ⟨by rw [h.1]; decide, by rw [h.2]; decide⟩

/-- C10: a range request whose start bound is omitted (bytes=-N) is
served from byte 0 with N as the inclusive end offset, clamped to the
last byte; it is not treated as an HTTP suffix range of the last N
bytes. -/
theorem C10_omitted_start (file : List Nat) (h : String) (sN : List Char) (N : Nat)
    (hsplit : splitDash (replaceStr "bytes=".data h.data) = [[], sN])
    (hdigits : digitsToNat? sN = some N) :
    range_response file (some h) =
      some (.ranged { body := file.take (min (N : Int) ((file.length : Int) - 1) + 1).toNat,
                      rangeStart := 0,
                      rangeEnd := min (N : Int) ((file.length : Int) - 1),
                      totalSize := file.length,
                      contentLength := min (N : Int) ((file.length : Int) - 1) + 1 }) := by
  have hsn : sN ≠ [] := by
    intro hnil
    rw [hnil] at hdigits
    simp [digitsToNat?] at hdigits
  have hparse : parseRange h (file.length : Int) = some (0, (N : Int)) := by
    unfold parseRange
    rw [hsplit]
    simp only [if_pos rfl, if_neg hsn, hdigits, Option.map_some']
    rfl
  simp only [range_response, hparse]
  rw [iter_chunk_spec file _ _ rfl]
  have hz : (min (N : Int) ((file.length : Int) - 1) - ((0 : Nat) : Int) + 1) =
      min (N : Int) ((file.length : Int) - 1) + 1 := by omega
  rw [hz, List.drop_zero]

/-- Witness for C10: bytes=-3 on a 6-byte artifact serves bytes 0..3. -/
theorem C10_omitted_start_witness :
    range_response [10, 11, 12, 13, 14, 15] (some "bytes=-3") =
      some (.ranged { body := [10, 11, 12, 13],
                      rangeStart := 0,
                      rangeEnd := 3,
                      totalSize := 6,
                      contentLength := 4 }) := by
  have h := C10_omitted_start [10, 11, 12, 13, 14, 15] "bytes=-3" ['3'] 3
    (by decide) (by decide)
  rw [h]
  decide

/-! ## Depth colorization (processing.py lines 66-124, claim C2)

_colorize_depth_frame thresholds a uint16 millimeter raster to the
100..1000 window, median-filters, hole-fills by inverted dilation,
bilateral-filters, median-filters again, and colormaps; invalid pixels
render as black.  Frames are lists of rows of rationals (float32
arithmetic idealised as exact rationals: median, dilation and erosion
are order statistics and exact in either arithmetic; sums and divisions
are the places the idealisation matters and no claim depends on their
rounding).  The Gaussian space/colour kernels of cv2.bilateralFilter
(d=9, sigmaColor=75, sigmaSpace=15) have no exact rational form, so the
two weight functions are parameters of the embedding, constrained to be
positive exactly as the Gaussians are; likewise the JET palette is a
parameter (the spec treats the palette as a pluggable function), known
never to produce pure black, which the code reserves for invalid
pixels. -/

/-- Indexing with a default, mirroring reading one element of a numpy
array row. -/
def getDQ {α : Type} (l : List α) (n : Nat) (d : α) : α := (l.get? n).getD d

/-- A raster: rows of rational pixel values. -/
abbrev Frame := List (List ℚ)

/-- Height of a frame. -/
def fheight (f : Frame) : Nat := f.length

/-- Width of a frame (rows are uniform in every frame the pipeline
builds). -/
def fwidth (f : Frame) : Nat := (f.headD []).length

/-- Build an h-by-w frame from a pixel function. -/
def mkFrame (h w : Nat) (g : Nat → Nat → ℚ) : Frame :=
  (List.range h).map (fun r => (List.range w).map (fun c => g r c))

/-- Clamp an integer index into 0..n-1 (numpy BORDER_REPLICATE). -/
def clampi (n : Nat) (i : Int) : Nat :=
  if i ≤ 0 then 0 else if (n : Int) - 1 ≤ i then n - 1 else i.toNat

/-- The row an integer row index selects under the replicate border. -/
def rowAt (f : Frame) (r : Int) : List ℚ := getDQ f (clampi (fheight f) r) []

/-- Pixel read with replicate border: out-of-range coordinates clamp to
the nearest edge pixel (cv2.medianBlur border handling). -/
def pget (f : Frame) (r c : Int) : ℚ :=
  getDQ (rowAt f r) (clampi (rowAt f r).length c) 0

/-- The square offset grid of half-width k. -/
def offsets (k : Nat) : List (Int × Int) :=
  ((List.range (2 * k + 1)).map (fun a => (a : Int) - (k : Int))).bind
    (fun dr => ((List.range (2 * k + 1)).map (fun a => (a : Int) - (k : Int))).map
      (fun dc => (dr, dc)))

/-- Insertion into a sorted list of rationals. -/
def insertLe (x : ℚ) : List ℚ → List ℚ
  | [] => [x]
  | y :: ys => if x ≤ y then x :: y :: ys else y :: insertLe x ys

/-- Insertion sort on rationals. -/
def sortQ : List ℚ → List ℚ
  | [] => []
  | x :: xs => insertLe x (sortQ xs)

/-- Median of a list: the middle element of the sorted list (odd-sized
windows only in this pipeline, so no averaging arises). -/
def medianOf (l : List ℚ) : ℚ := getDQ (sortQ l) (l.length / 2) 0

/-- cv2.medianBlur with a 5x5 aperture and replicate border. -/
def medianBlur5 (f : Frame) : Frame :=
  mkFrame (fheight f) (fwidth f) (fun r c =>
    medianOf ((offsets 2).map (fun d =>
      pget f ((r : Int) + d.1) ((c : Int) + d.2))))

/-- Thresholding of lines 90-91: values above 1000 mm or below 100 mm
become the sentinel 0. -/
def thresholdDepth (f : Frame) : Frame :=
  mkFrame (fheight f) (fwidth f) (fun r c =>
    if 1000 < pget f r c then 0
    else if pget f r c < 100 then 0
    else pget f r c)

/-- Active offsets of cv2.getStructuringElement(MORPH_ELLIPSE, (5,5)):
full middle rows, centre column only on the outer rows. -/
def kernel5 : List (Int × Int) :=
  (offsets 2).filter (fun d => decide (d.1 = -2 ∨ d.1 = 2 → d.2 = 0))

/-- Active offsets of cv2.getStructuringElement(MORPH_ELLIPSE, (7,7)). -/
def kernel7 : List (Int × Int) :=
  (offsets 3).filter (fun d =>
    decide ((d.1 = -3 ∨ d.1 = 3 → d.2 = 0) ∧
      (d.1 = -2 ∨ d.1 = 2 → -2 ≤ d.2 ∧ d.2 ≤ 2)))

/-- The all-ones 31x31 kernel of line 72. -/
def kernel31 : List (Int × Int) := offsets 15

/-- Values of the kernel-shaped neighbourhood that fall inside the
frame; morphological operators ignore the outside (their constant
border value is neutral). -/
def inBoundsVals (f : Frame) (r c : Int) (ker : List (Int × Int)) : List ℚ :=
  ker.filterMap (fun d =>
    if 0 ≤ r + d.1 ∧ r + d.1 < (fheight f : Int) ∧
        0 ≤ c + d.2 ∧ c + d.2 < (fwidth f : Int) then
      some (pget f (r + d.1) (c + d.2))
    else none)

/-- Maximum of a value list (0 on an empty list; the anchor pixel is
always in bounds and all pipeline values are nonnegative, so the
default never shows). -/
def maxQ : List ℚ → ℚ
  | [] => 0
  | x :: xs => xs.foldl max x

/-- Minimum of a value list, same conventions as maxQ. -/
def minQ : List ℚ → ℚ
  | [] => 0
  | x :: xs => xs.foldl min x

/-- cv2.dilate with a structuring element. -/
def dilateK (ker : List (Int × Int)) (f : Frame) : Frame :=
  mkFrame (fheight f) (fwidth f) (fun r c =>
    maxQ (inBoundsVals f (r : Int) (c : Int) ker))

/-- cv2.erode with a structuring element. -/
def erodeK (ker : List (Int × Int)) (f : Frame) : Frame :=
  mkFrame (fheight f) (fwidth f) (fun r c =>
    minQ (inBoundsVals f (r : Int) (c : Int) ker))

/-- cv2.morphologyEx MORPH_CLOSE: dilation followed by erosion. -/
def closeK (ker : List (Int × Int)) (f : Frame) : Frame :=
  erodeK ker (dilateK ker f)

/-- Lines 97-99: invert valid depth (closer becomes larger) so that
dilation fills holes with the nearest depth. -/
def invertStage (f : Frame) : Frame :=
  mkFrame (fheight f) (fwidth f) (fun r c =>
    if 0 < pget f (r : Int) (c : Int) then 1000 - pget f (r : Int) (c : Int) else 0)

/-- Lines 103-105: pixels still empty after the close are filled from a
31x31 dilation. -/
def fillStage (f : Frame) : Frame :=
  mkFrame (fheight f) (fwidth f) (fun r c =>
    if pget f (r : Int) (c : Int) = 0 then
      pget (dilateK kernel31 f) (r : Int) (c : Int)
    else pget f (r : Int) (c : Int))

/-- Lines 107-110: un-invert and clip to 0..1000. -/
def unInvertClipStage (f : Frame) : Frame :=
  mkFrame (fheight f) (fwidth f) (fun r c =>
    min (max (if 0 < pget f (r : Int) (c : Int) then
      1000 - pget f (r : Int) (c : Int) else 0) 0) 1000)

/-- The hole-filling block of lines 96-110. -/
def holeFill (f : Frame) : Frame :=
  unInvertClipStage (fillStage (closeK kernel7 (dilateK kernel5 (invertStage f))))

/-- Reflect-101 index mapping, the default border of
cv2.bilateralFilter. -/
def reflect101 (n : Nat) (i : Int) : Int :=
  if i < 0 then -i else if (n : Int) ≤ i then 2 * ((n : Int) - 1) - i else i

/-- Pixel read with reflect-101 border (clamped afterwards for
totality; bilateral windows on the frames of this development stay in
range after one reflection). -/
def pgetR (f : Frame) (r c : Int) : ℚ :=
  pget f (reflect101 (fheight f) r) (reflect101 (fwidth f) c)

/-- The circular window of cv2.bilateralFilter with d = 9: offsets
within Euclidean radius 4. -/
def offsetsBil : List (Int × Int) :=
  (offsets 4).filter (fun d => decide (d.1 * d.1 + d.2 * d.2 ≤ 16))

/-- cv2.bilateralFilter as a normalized weighted average over the
circular window, with the space weight `wS` and colour weight `wC` as
positive parameters standing for the float Gaussians. -/
def bilateral (wS : Int × Int → ℚ) (wC : ℚ → ℚ) (f : Frame) : Frame :=
  mkFrame (fheight f) (fwidth f) (fun r c =>
    let terms := offsetsBil.map (fun d =>
      (wS d * wC (pgetR f ((r : Int) + d.1) ((c : Int) + d.2) -
          pget f (r : Int) (c : Int)),
       pgetR f ((r : Int) + d.1) ((c : Int) + d.2)))
    (terms.map (fun p => p.1 * p.2)).sum / (terms.map Prod.fst).sum)

/-- The palette index of a filled depth value (line 121): the float
expression 255 - clip(v / 1000 * 255, 0, 255) truncated to uint8. -/
def normOf (v : ℚ) : Nat :=
  (Rat.floor ((255 : ℚ) - min (max (v / 1000 * 255) 0) 255)).toNat

/-- Lines 119-123: pixels with filled value above 50 get the palette
colour of their index; all other pixels get the black background. -/
def colormapStage (palette : Nat → Nat × Nat × Nat) (f : Frame) :
    List (List (Nat × Nat × Nat)) :=
  (List.range (fheight f)).map (fun r => (List.range (fwidth f)).map (fun c =>
    if 50 < pget f (Int.ofNat r) (Int.ofNat c) then
      palette (normOf (pget f (Int.ofNat r) (Int.ofNat c)))
    else (0, 0, 0)))

/-- Read one pixel of the colorized output (black outside). -/
def cget (cf : List (List (Nat × Nat × Nat))) (r c : Nat) : Nat × Nat × Nat :=
  getDQ (getDQ cf r []) c (0, 0, 0)

/-- Translation of _colorize_depth_frame (lines 75-124): threshold,
median, hole-fill, bilateral, median, colormap. -/
def colorize (wS : Int × Int → ℚ) (wC : ℚ → ℚ)
    (palette : Nat → Nat × Nat × Nat) (f : Frame) :
    List (List (Nat × Nat × Nat)) :=
  colormapStage palette
    (medianBlur5 (bilateral wS wC (holeFill (medianBlur5 (thresholdDepth f)))))

/-! ### Claim C2: sentinel pixels and colour ordering -/

/-- A frame that reads zero at every (clamped) coordinate. -/
def PZero (f : Frame) : Prop := ∀ r c : Int, pget f r c = 0

theorem pget_nil (r c : Int) : pget [] r c = 0 := rfl

theorem getDQ_nil {α : Type} (i : Nat) (d : α) : getDQ [] i d = d := rfl

theorem getDQ_map_range {α : Type} {n i : Nat} (g : Nat → α) (d : α)
    (h : i < n) : getDQ ((List.range n).map g) i d = g i := by
  rw [getDQ, List.get?_map, List.get?_range h]
  rfl

theorem getDQ_ge {α : Type} {l : List α} {i : Nat} (d : α)
    (h : l.length ≤ i) : getDQ l i d = d := by
  rw [getDQ, List.get?_eq_none.mpr h]
  rfl

theorem clampi_lt {n : Nat} (hn : 0 < n) (i : Int) : clampi n i < n := by
  unfold clampi
  split
  · exact hn
  · split
    · omega
    · omega

theorem pget_mkFrame_zero {h w : Nat} (g : Nat → Nat → ℚ)
    (hg : ∀ r' c', g r' c' = 0) (r c : Int) : pget (mkFrame h w g) r c = 0 := by
  cases h with
  | zero => exact pget_nil r c
  | succ h0 =>
      have hrow : rowAt (mkFrame (h0 + 1) w g) r =
          (List.range w).map (g (clampi (h0 + 1) r)) := by
        unfold rowAt
        have hh : fheight (mkFrame (h0 + 1) w g) = h0 + 1 := by
          simp [fheight, mkFrame]
        rw [hh]
        rw [show mkFrame (h0 + 1) w g =
          (List.range (h0 + 1)).map (fun r' => (List.range w).map (g r')) from rfl]
        rw [getDQ_map_range _ _ (clampi_lt (Nat.succ_pos h0) r)]
      unfold pget
      rw [hrow]
      cases w with
      | zero => exact getDQ_nil _ _
      | succ w0 =>
          have hw : ((List.range (w0 + 1)).map
              (g (clampi (h0 + 1) r))).length = w0 + 1 := by simp
          rw [hw]
          rw [getDQ_map_range _ _ (clampi_lt (Nat.succ_pos w0) c)]
          exact hg _ _

theorem mem_insertLe {x a : ℚ} {l : List ℚ} (h : x ∈ insertLe a l) :
    x = a ∨ x ∈ l := by
  induction l with
  | nil =>
      simp [insertLe] at h
      exact Or.inl h
  | cons y ys ih =>
      unfold insertLe at h
      by_cases hle : a ≤ y
      · rw [if_pos hle] at h
        rcases List.mem_cons.mp h with h | h
        · exact Or.inl h
        · exact Or.inr h
      · rw [if_neg hle] at h
        rcases List.mem_cons.mp h with h | h
        · exact Or.inr (h ▸ List.mem_cons_self _ _)
        · rcases ih h with h' | h'
          · exact Or.inl h'
          · exact Or.inr (List.mem_cons_of_mem _ h')

theorem mem_sortQ {x : ℚ} {l : List ℚ} (h : x ∈ sortQ l) : x ∈ l := by
  induction l with
  | nil => simp [sortQ] at h
  | cons y ys ih =>
      unfold sortQ at h
      rcases mem_insertLe h with h' | h'
      · exact h' ▸ List.mem_cons_self _ _
      · exact List.mem_cons_of_mem _ (ih h')

theorem medianOf_zero {l : List ℚ} (h : ∀ x ∈ l, x = 0) : medianOf l = 0 := by
  unfold medianOf getDQ
  cases hg : (sortQ l).get? (l.length / 2) with
  | none => rfl
  | some y =>
      have hy : y ∈ sortQ l := List.get?_mem hg
      simpa using h y (mem_sortQ hy)

theorem maxQ_zero {l : List ℚ} (h : ∀ x ∈ l, x = 0) : maxQ l = 0 := by
  cases l with
  | nil => rfl
  | cons x xs =>
      have hx : x = 0 := h x (List.mem_cons_self _ _)
      subst hx
      show xs.foldl max 0 = 0
      induction xs with
      | nil => rfl
      | cons y ys ih =>
          have hy : y = 0 := h y (List.mem_cons_of_mem _ (List.mem_cons_self _ _))
          subst hy
          show ys.foldl max (max 0 0) = 0
          rw [max_self]
          exact ih (fun z hz => h z (by
            rcases List.mem_cons.mp hz with h' | h'
            · exact h' ▸ List.mem_cons_self _ _
            · exact List.mem_cons_of_mem _ (List.mem_cons_of_mem _ h')))

theorem minQ_zero {l : List ℚ} (h : ∀ x ∈ l, x = 0) : minQ l = 0 := by
  cases l with
  | nil => rfl
  | cons x xs =>
      have hx : x = 0 := h x (List.mem_cons_self _ _)
      subst hx
      show xs.foldl min 0 = 0
      induction xs with
      | nil => rfl
      | cons y ys ih =>
          have hy : y = 0 := h y (List.mem_cons_of_mem _ (List.mem_cons_self _ _))
          subst hy
          show ys.foldl min (min 0 0) = 0
          rw [min_self]
          exact ih (fun z hz => h z (by
            rcases List.mem_cons.mp hz with h' | h'
            · exact h' ▸ List.mem_cons_self _ _
            · exact List.mem_cons_of_mem _ (List.mem_cons_of_mem _ h')))

theorem inBoundsVals_zero {f : Frame} (hf : PZero f) (r c : Int)
    (ker : List (Int × Int)) : ∀ x ∈ inBoundsVals f r c ker, x = 0 := by
  intro x hx
  obtain ⟨d, _, hd⟩ := List.mem_filterMap.mp hx
  by_cases hb : 0 ≤ r + d.1 ∧ r + d.1 < (fheight f : Int) ∧
      0 ≤ c + d.2 ∧ c + d.2 < (fwidth f : Int)
  · rw [if_pos hb] at hd
    rw [← Option.some.inj hd]
    exact hf _ _
  · rw [if_neg hb] at hd
    exact Option.noConfusion hd

theorem pzero_medianBlur5 {f : Frame} (hf : PZero f) : PZero (medianBlur5 f) := by
  intro r c
  apply pget_mkFrame_zero
  intro r' c'
  apply medianOf_zero
  intro x hx
  obtain ⟨d, _, hd⟩ := List.mem_map.mp hx
  rw [← hd]
  exact hf _ _

theorem pzero_thresholdDepth {f : Frame}
    (hinv : ∀ r c : Int, pget f r c < 100 ∨ 1000 < pget f r c) :
    PZero (thresholdDepth f) := by
  intro r c
  apply pget_mkFrame_zero
  intro r' c'
  rcases hinv (r' : Int) (c' : Int) with h | h
  · rw [if_neg (by linarith), if_pos h]
  · rw [if_pos h]

theorem pzero_dilateK {f : Frame} (ker : List (Int × Int)) (hf : PZero f) :
    PZero (dilateK ker f) := by
  intro r c
  apply pget_mkFrame_zero
  intro r' c'
  exact maxQ_zero (inBoundsVals_zero hf _ _ _)

theorem pzero_erodeK {f : Frame} (ker : List (Int × Int)) (hf : PZero f) :
    PZero (erodeK ker f) := by
  intro r c
  apply pget_mkFrame_zero
  intro r' c'
  exact minQ_zero (inBoundsVals_zero hf _ _ _)

theorem pzero_invertStage {f : Frame} (hf : PZero f) : PZero (invertStage f) := by
  intro r c
  apply pget_mkFrame_zero
  intro r' c'
  rw [hf (r' : Int) (c' : Int)]
  simp

theorem pzero_fillStage {f : Frame} (hf : PZero f) : PZero (fillStage f) := by
  intro r c
  apply pget_mkFrame_zero
  intro r' c'
  rw [if_pos (hf (r' : Int) (c' : Int))]
  exact pzero_dilateK kernel31 hf _ _

theorem pzero_unInvertClipStage {f : Frame} (hf : PZero f) :
    PZero (unInvertClipStage f) := by
  intro r c
  apply pget_mkFrame_zero
  intro r' c'
  rw [hf (r' : Int) (c' : Int)]
  simp

theorem pzero_holeFill {f : Frame} (hf : PZero f) : PZero (holeFill f) :=
  pzero_unInvertClipStage (pzero_fillStage
    (pzero_erodeK kernel7 (pzero_dilateK kernel7
      (pzero_dilateK kernel5 (pzero_invertStage hf)))))

theorem pzero_bilateral {f : Frame} (wS : Int × Int → ℚ) (wC : ℚ → ℚ)
    (hf : PZero f) : PZero (bilateral wS wC f) := by
  intro r c
  apply pget_mkFrame_zero
  intro r' c'
  have hnum : ((offsetsBil.map (fun d =>
      (wS d * wC (pgetR f ((r' : Int) + d.1) ((c' : Int) + d.2) -
          pget f (r' : Int) (c' : Int)),
       pgetR f ((r' : Int) + d.1) ((c' : Int) + d.2)))).map
        (fun p => p.1 * p.2)).sum = 0 := by
    apply List.sum_eq_zero
    intro x hx
    obtain ⟨p, hp, hpx⟩ := List.mem_map.mp hx
    obtain ⟨d, _, hd⟩ := List.mem_map.mp hp
    rw [← hpx, ← hd]
    show _ * pgetR f _ _ = 0
    rw [pgetR, hf _ _, mul_zero]
  show _ / _ = 0
  rw [hnum, zero_div]

theorem cget_colormap_zero {f : Frame} (hf : PZero f)
    (palette : Nat → Nat × Nat × Nat) (r c : Nat) :
    cget (colormapStage palette f) r c = (0, 0, 0) := by
  by_cases hr : r < fheight f
  · unfold cget colormapStage
    rw [getDQ_map_range _ _ hr]
    by_cases hc : c < fwidth f
    · rw [getDQ_map_range _ _ hc]
      rw [if_neg (by rw [hf (Int.ofNat r) (Int.ofNat c)]; norm_num)]
    · rw [getDQ_ge ((0, 0, 0) : Nat × Nat × Nat)
        (by simpa using Nat.le_of_not_lt hc)]
  · have hlen : (colormapStage palette f).length ≤ r := by
      simpa [colormapStage] using Nat.le_of_not_lt hr
    unfold cget
    rw [getDQ_ge ([] : List (Nat × Nat × Nat)) hlen, getDQ_nil]

theorem normOf_antitone {v1 v2 : ℚ} (h : v1 ≤ v2) : normOf v2 ≤ normOf v1 := by
  unfold normOf
  have hfl : ∀ q : ℚ, Rat.floor q = Int.floor q := fun q => rfl
  rw [hfl, hfl]
  apply Int.toNat_le_toNat
  apply Int.floor_le_floor
  have hmono : min (max (v1 / 1000 * 255) 0) 255 ≤ min (max (v2 / 1000 * 255) 0) 255 := by
    apply min_le_min _ le_rfl
    apply max_le_max _ le_rfl
    have h1 : v1 / 1000 ≤ v2 / 1000 := by
      apply (div_le_div_right (by norm_num : (0 : ℚ) < 1000)).mpr h
    exact mul_le_mul_of_nonneg_right h1 (by norm_num)
  linarith

/-- C2 amended: the colorizer's hole filling may render a sentinel-0
pixel as a valid measurement (see the counterexample), but in a frame
containing no value inside the valid 100..1000 mm window every pixel,
all sentinel pixels included, maps to the black background for every
choice of smoothing weights and palette; and the palette-index mapping
of valid filled values is antitone, so within the valid window a
smaller millimeter value never gets a cooler (lower) palette index than
a larger one. -/
theorem C2_sentinel_background_and_ordering (f : Frame)
    (wS : Int × Int → ℚ) (wC : ℚ → ℚ) (palette : Nat → Nat × Nat × Nat)
    (hinv : ∀ r c : Int, pget f r c < 100 ∨ 1000 < pget f r c) :
    (∀ r c : Nat, cget (colorize wS wC palette f) r c = (0, 0, 0)) ∧
    (∀ v1 v2 : ℚ, v1 ≤ v2 → normOf v2 ≤ normOf v1) := by
  constructor
  · intro r c
    apply cget_colormap_zero
    exact pzero_medianBlur5 (pzero_bilateral wS wC
      (pzero_holeFill (pzero_medianBlur5 (pzero_thresholdDepth hinv))))
  · intro v1 v2 h
    exact normOf_antitone h

/-- Five-by-five frame: valid 500 mm everywhere except a sentinel-0
centre pixel. -/
def badFrame : Frame :=
  [[500, 500, 500, 500, 500],
   [500, 500, 500, 500, 500],
   [500, 500, 0, 500, 500],
   [500, 500, 500, 500, 500],
   [500, 500, 500, 500, 500]]

/-- The constant 500 mm frame. -/
def const500 : Frame := List.replicate 5 (List.replicate 5 (500 : ℚ))

/-- Constant-one space weight: a positive instance of the smoothing
kernel parameters. -/
def w1 : Int × Int → ℚ := fun _ => 1

/-- Constant-one colour weight. -/
def wc1 : ℚ → ℚ := fun _ => 1

/-- A palette instance that never yields pure black (as the JET palette
never does; the code reserves black for invalid pixels). -/
def palConcrete : Nat → Nat × Nat × Nat := fun n => (n + 1, 0, 0)

set_option maxRecDepth 100000 in
/-- C2 counterexample: the centre pixel of badFrame carries the input
sentinel 0, the smoothing weights are positive and the palette never
yields the background colour, yet the colorized output at that pixel is
a valid (non-background) colour: the 5x5 median already replaces the
isolated zero with the surrounding 500 mm, and the pixel is rendered as
palette index 127. -/
theorem C2_counterexample :
    pget badFrame 2 2 = 0 ∧
    (∀ d, 0 < w1 d) ∧ (∀ q, 0 < wc1 q) ∧
    (∀ n, palConcrete n ≠ (0, 0, 0)) ∧
    cget (colorize w1 wc1 palConcrete badFrame) 2 2 = (128, 0, 0) ∧
    cget (colorize w1 wc1 palConcrete badFrame) 2 2 ≠ (0, 0, 0) := by
  have e1 : thresholdDepth badFrame = badFrame := by with_unfolding_all decide
  have e2 : medianBlur5 badFrame = const500 := by with_unfolding_all decide
  have e3a : invertStage const500 = const500 := by with_unfolding_all decide
  have e3b : dilateK kernel5 const500 = const500 := by with_unfolding_all decide
  have e3c : dilateK kernel7 const500 = const500 := by with_unfolding_all decide
  have e3d : erodeK kernel7 const500 = const500 := by with_unfolding_all decide
  have e3e : fillStage const500 = const500 := by with_unfolding_all decide
  have e3f : unInvertClipStage const500 = const500 := by with_unfolding_all decide
  have e4 : bilateral w1 wc1 const500 = const500 := by with_unfolding_all decide
  have e5 : medianBlur5 const500 = const500 := by with_unfolding_all decide
  have ecol : colorize w1 wc1 palConcrete badFrame =
      colormapStage palConcrete const500 := by
    unfold colorize holeFill closeK
    rw [e1, e2, e3a, e3b, e3c, e3d, e3e, e3f, e4, e5]
  refine ⟨by with_unfolding_all decide, fun d => one_pos, fun q => one_pos,
    fun n => by simp [palConcrete], ?_, ?_⟩
  · rw [ecol]
    with_unfolding_all decide
  · rw [ecol]
    with_unfolding_all decide

/-- The all-sentinel two-by-two frame. -/
def zeroFrame : Frame := [[0, 0], [0, 0]]

theorem pzero_of_all_zero {f : Frame}
    (hall : ∀ row ∈ f, ∀ x ∈ row, x = (0 : ℚ)) : PZero f := by
  intro r c
  unfold pget rowAt getDQ
  cases hrw : f.get? (clampi (fheight f) r) with
  | none => simp
  | some row =>
      have hrow := List.get?_mem hrw
      simp only [Option.getD_some]
      cases hx : row.get? (clampi row.length c) with
      | none => simp
      | some x =>
          simp only [Option.getD_some]
          exact hall row hrow x (List.get?_mem hx)

/-- Witness for C2 amended: on the all-sentinel frame with the concrete
weights and palette, the centre pixel renders background, and 200 mm is
not mapped cooler than 300 mm. -/
theorem C2_sentinel_background_and_ordering_witness :
    cget (colorize w1 wc1 palConcrete zeroFrame) 0 0 = (0, 0, 0) ∧
    normOf 300 ≤ normOf 200 := by
  have hinv : ∀ r c : Int, pget zeroFrame r c < 100 ∨ 1000 < pget zeroFrame r c := by
    intro r c
    left
    rw [pzero_of_all_zero (by decide) r c]
    norm_num
  have h := C2_sentinel_background_and_ordering zeroFrame w1 wc1 palConcrete hinv
  exact ⟨h.1 0 0, h.2 200 300 (by norm_num)⟩

end Oakd
